import Mathlib

/-!
# A shallow embedding of the Hancho build engine (`hancho.py`)

This file models the parts of `hancho.py` (v0.4.0) that the verified
properties speak about:

* the `Config` data model: a `dict` subclass with attribute lookup,
  `merge` (via `merge_variant`) and `fork`;
* the text-expansion engine (`expand_text`, `expand_macro`, `expand_variant`,
  `Expander.get`, `expand_inc`/`expand_dec`, `stringify_variant`,
  the `macro_regex` span search) with the global `app.expand_depth`
  counter threaded as explicit state that survives exceptions, exactly
  as a Python global does;
* the staleness oracle `Task.needs_rerun`;
* the duplicate-output check of `Task.task_init`;
* the command loop of `Task.task_main` / `Task.run_command`;
* the exit-code computation of `App.async_run_tasks`.

Python values stored in a config are modelled by the inductive `Value`;
a Python `dict` / `Config` body is an association list `List (String × Value)`
(Python dict keys are unique and insertion-ordered; our `setEntry`
preserves both properties).  File systems and subprocesses are modelled
as explicit environments (`FileSys`, `CmdEnv`).  The Python `eval` used
for `{...}` spans is modelled as identifier lookup on the wrapped config
(`evalBody` below), which is the form the engine's own default templates
use; evaluation failure (Python's `AttributeError` escaping from
`Expander.get`) is the `keyMissing` exception.
-/

namespace Hancho

/-- A Python value as storable in a `Config`: `None`, bools, ints, strings,
lists, and nested `Config`/dict objects (an association list of entries).
Tasks, callables and awaitables are not needed by the verified claims. -/
inductive Value where
  | vnil
  | vbool (b : Bool)
  | vint (n : Int)
  | vstr (s : String)
  | vlist (xs : List Value)
  | vconfig (entries : List (String × Value))
  deriving Repr

/-- Python truthiness test `v is None`. -/
def Value.isNil : Value → Bool
  | Value.vnil => true
  | _ => false

/-- Python `dict` lookup (`dict.__getitem__` / `dict.get`): the value bound
to `k`, or `none` when the key is absent. -/
def lookupEntry (es : List (String × Value)) (k : String) : Option Value :=
  match es with
  | [] => none
  | (k', v) :: rest => if k' = k then some v else lookupEntry rest k

/-- Python `dict.__setitem__`: re-binding an existing key keeps its position,
a new key is appended (insertion order). -/
def setEntry (es : List (String × Value)) (k : String) (v : Value) :
    List (String × Value) :=
  match es with
  | [] => [(k, v)]
  | (k', v') :: rest =>
    if k' = k then (k', v) :: rest else (k', v') :: setEntry rest k v

mutual

/-- Model of `merge_variant(lhs, rhs)` from `hancho.py`: when both sides are
dict-like configs, merge key-by-key; otherwise the result is a deep copy
of `rhs` (deep copies are identities on pure values). -/
def mergeVariant (lhs rhs : Value) : Value :=
  match lhs, rhs with
  | Value.vconfig le, Value.vconfig re => Value.vconfig (mergeEntries le re)
  | _, _ => rhs

/-- The loop body of `merge_variant` on a config `lhs` and dict-like `rhs`:
for each entry `(k, rval)` of `rhs`, with `lval = lhs.get(k, None)`,
if `lval is None or rval is not None` then `lhs[k] = merge_variant(lval, rval)`,
else the left entry is kept.  `lval is None` covers both an absent key and a
stored `None`, so the recursive `mergeVariant` receives `vnil` in either case. -/
def mergeEntries (le : List (String × Value)) (re : List (String × Value)) :
    List (String × Value) :=
  match re with
  | [] => le
  | (k, rv) :: rest =>
    let lv := (lookupEntry le k).getD Value.vnil
    let le' :=
      if lv.isNil || !rv.isNil then setEntry le k (mergeVariant lv rv)
      else le
    mergeEntries le' rest

end

/-- Model of `Config.fork(*overrides)` = `Config(self, *overrides)`:
`Config.__init__` merges the parent config first, then the overrides,
into a fresh empty dict. -/
def forkConfig (parent overrides : List (String × Value)) :
    List (String × Value) :=
  mergeEntries (mergeEntries [] parent) overrides

/-- Model of `Config.__getattr__`: return the locally bound value, raising
`AttributeError` (the *key-missing* error) when the key is absent. -/
def configGetattr (es : List (String × Value)) (k : String) :
    Except String Value :=
  match lookupEntry es k with
  | some v => Except.ok v
  | none => Except.error ("AttributeError: " ++ k)

/-- The per-key behavior of `merge` as the spec states it, used to compare
against `mergeEntries`: no right-hand binding leaves the left binding; a
right-hand `nil` against a non-nil left value leaves the left binding;
otherwise the right-hand value overwrites through `mergeVariant` (which
recurses when both sides hold a config). -/
def mergeLookupSpec : Option Value → Option Value → Option Value
  | lv?, none => lv?
  | lv?, some rv =>
    if (lv?.getD Value.vnil).isNil = false ∧ rv.isNil = true then lv?
    else some (mergeVariant (lv?.getD Value.vnil) rv)

/-! ## The text-expansion engine

`hancho.py` keeps a process-global `app.expand_depth` counter, incremented
by `expand_inc` (raising `RecursionError` past `MAX_EXPAND_DEPTH`) and
decremented by `expand_dec`.  Exceptions skip the pending `expand_dec`
calls of the frames they unwind, and the only handler is the catch-all
around `eval` in `expand_macro` (TEFINAE), so the counter state must
survive a raise.  Every function below therefore returns
`Except ExpErr α × Int`: the outcome together with the counter value at
return/raise time.  `fuel` is a proof artifact making the mutual recursion
structurally terminating; running out of fuel is the distinguished
`fuelOut` outcome, which the TEFINAE handler deliberately re-raises so it
can never be mistaken for Python behavior. -/

/-- Exceptions of the expansion engine: `AttributeError` escaping from
`Expander.get` (*key-missing*), `RecursionError` from `expand_inc`
(*recursion*), `RecursionError` from an unbalanced `expand_dec`, and the
out-of-fuel artifact. -/
inductive ExpErr where
  | keyMissing
  | recursion
  | unbalanced
  | fuelOut
  deriving DecidableEq, Repr

/-- Constant `MAX_EXPAND_DEPTH = 20` from `hancho.py`. -/
def MAX_EXPAND_DEPTH : Int := 20

/-- Helper for `macro_regex`: scan the characters after a `{` for the end
of a `{[^{}]*}` span.  Returns the body and the remaining suffix, or
`none` when a `{` or the end of the string intervenes. -/
def scanBody : List Char → Option (List Char × List Char)
  | [] => none
  | c :: rest =>
    if c = '}' then some ([], rest)
    else if c = '{' then none
    else
      match scanBody rest with
      | some (b, s) => some (c :: b, s)
      | none => none

/-- Model of `macro_regex.search`: the leftmost `{[^{}]*}` span, returned as
(prefix, span, suffix); `none` when the text holds no span. -/
def findSpanAux : List Char → Option (List Char × List Char × List Char)
  | [] => none
  | c :: rest =>
    if c = '{' then
      match scanBody rest with
      | some (body, suffix) => some ([], '{' :: (body ++ ['}']), suffix)
      | none =>
        match findSpanAux rest with
        | some (p, m, s) => some (c :: p, m, s)
        | none => none
    else
      match findSpanAux rest with
      | some (p, m, s) => some (c :: p, m, s)
      | none => none

/-- Model of `macro_regex.search` on a string. -/
def findSpan (s : String) : Option (String × String × String) :=
  match findSpanAux s.data with
  | some (p, m, suf) => some (⟨p⟩, ⟨m⟩, ⟨suf⟩)
  | none => none

/-- Model of `macro[1:-1]`: the expression between the braces of a span. -/
def macBody (mac : String) : String :=
  ⟨(mac.data.drop 1).dropLast⟩

mutual

/-- Model of `stringify_variant`: `None` → `""`, bools/ints via Python `str`,
lists joined with single spaces; the `Dumper` repr that Python's `str`
would produce for a raw config (an address-based dump) is abstracted to
a constant tag, which no verified claim observes. -/
def stringifyVariant : Value → String
  | Value.vnil => ""
  | Value.vbool b => if b then "True" else "False"
  | Value.vint n => toString n
  | Value.vstr s => s
  | Value.vlist xs => String.intercalate " " (stringifyList xs)
  | Value.vconfig _ => "Config"

def stringifyList : List Value → List String
  | [] => []
  | v :: vs => stringifyVariant v :: stringifyList vs

end

mutual

/-- Model of `expand_text(expander, text)`: return texts without spans unchanged;
otherwise `expand_inc`, substitute every span left to right, `expand_dec`,
and re-expand when the pass changed the text. -/
def expandText : Nat → List (String × Value) → String → Int →
    Except ExpErr String × Int
  | 0, _, text, d =>
    if findSpan text = none then (Except.ok text, d)
    else (Except.error ExpErr.fuelOut, d)
  | fuel + 1, cfg, text, d =>
    if findSpan text = none then (Except.ok text, d)
    else if MAX_EXPAND_DEPTH < d + 1 then (Except.error ExpErr.recursion, d + 1)
    else
      match expandSpansLoop fuel cfg text (d + 1) with
      | (Except.error e, d') => (Except.error e, d')
      | (Except.ok result, d') =>
        if d' - 1 < 0 then (Except.error ExpErr.unbalanced, d' - 1)
        else if result ≠ text then expandText fuel cfg result (d' - 1)
        else (Except.ok result, d' - 1)

/-- The `while span := macro_regex.search(temp)` loop of `expand_text`:
each span is expanded by `expand_macro` and stringified into the result. -/
def expandSpansLoop : Nat → List (String × Value) → String → Int →
    Except ExpErr String × Int
  | 0, _, _, d => (Except.error ExpErr.fuelOut, d)
  | fuel + 1, cfg, temp, d =>
    match findSpan temp with
    | none => (Except.ok temp, d)
    | some (pre, mac, suf) =>
      match expandSpanned fuel cfg mac d with
      | (Except.error e, d') => (Except.error e, d')
      | (Except.ok v, d') =>
        match expandSpansLoop fuel cfg suf d' with
        | (Except.error e, d'') => (Except.error e, d'')
        | (Except.ok rest, d'') =>
          (Except.ok (pre ++ stringifyVariant v ++ rest), d'')

/-- Model of `expand_macro(expander, macro)`: `expand_inc`, then evaluate the body
under a catch-all handler — on any (Python) exception the original span
string is the result (TEFINAE) — then `expand_dec`.  The fuel artifact is
re-raised rather than caught. -/
def expandSpanned : Nat → List (String × Value) → String → Int →
    Except ExpErr Value × Int
  | 0, _, _, d => (Except.error ExpErr.fuelOut, d)
  | fuel + 1, cfg, mac, d =>
    if MAX_EXPAND_DEPTH < d + 1 then (Except.error ExpErr.recursion, d + 1)
    else
      match evalBody fuel cfg (macBody mac) (d + 1) with
      | (Except.error ExpErr.fuelOut, d') => (Except.error ExpErr.fuelOut, d')
      | (Except.error _, d') =>
        if d' - 1 < 0 then (Except.error ExpErr.unbalanced, d' - 1)
        else (Except.ok (Value.vstr mac), d' - 1)
      | (Except.ok v, d') =>
        if d' - 1 < 0 then (Except.error ExpErr.unbalanced, d' - 1)
        else (Except.ok v, d' - 1)

/-- Model of `eval(macro[1:-1], {}, expander)` restricted to identifier bodies:
`Expander.get` reads the key from the wrapped config — raising
`AttributeError` (*key-missing*) when absent — and expands the value it
found (`val = expand_variant(self, val)`). -/
def evalBody : Nat → List (String × Value) → String → Int →
    Except ExpErr Value × Int
  | 0, _, _, d => (Except.error ExpErr.fuelOut, d)
  | fuel + 1, cfg, body, d =>
    match lookupEntry cfg body with
    | none => (Except.error ExpErr.keyMissing, d)
    | some v => expandVariant fuel cfg v d

/-- Model of `expand_variant`: strings via `expand_text`, lists element-wise,
configs wrapped in an `Expander` view (denotationally the config itself),
everything else returned as-is. -/
def expandVariant : Nat → List (String × Value) → Value → Int →
    Except ExpErr Value × Int
  | 0, _, _, d => (Except.error ExpErr.fuelOut, d)
  | fuel + 1, cfg, v, d =>
    match v with
    | Value.vstr s =>
      match expandText fuel cfg s d with
      | (Except.ok r, d') => (Except.ok (Value.vstr r), d')
      | (Except.error e, d') => (Except.error e, d')
    | Value.vlist xs =>
      match expandValueList fuel cfg xs d with
      | (Except.ok ys, d') => (Except.ok (Value.vlist ys), d')
      | (Except.error e, d') => (Except.error e, d')
    | other => (Except.ok other, d)

/-- Element-wise expansion of a list value, threading the depth state. -/
def expandValueList : Nat → List (String × Value) → List Value → Int →
    Except ExpErr (List Value) × Int
  | 0, _, _, d => (Except.error ExpErr.fuelOut, d)
  | fuel + 1, cfg, xs, d =>
    match xs with
    | [] => (Except.ok [], d)
    | x :: rest =>
      match expandVariant fuel cfg x d with
      | (Except.error e, d') => (Except.error e, d')
      | (Except.ok y, d') =>
        match expandValueList fuel cfg rest d' with
        | (Except.error e, d'') => (Except.error e, d'')
        | (Except.ok ys, d'') => (Except.ok (y :: ys), d'')

end

/-- Model of `Config.expand` on a string value: `expand_variant(Expander(self), s)`
from a clean engine (`app.expand_depth = 0`), which for a string is
`expand_text` at depth `0`. -/
def expandTop (fuel : Nat) (cfg : List (String × Value)) (s : String) :
    Except ExpErr String × Int :=
  expandText fuel cfg s 0

/-! ## The staleness oracle `Task.needs_rerun` -/

/-- The file-system facts `needs_rerun` consults: `os.stat(f).st_mtime_ns`
(via the engine's `mtime` helper), `path.exists`, and `__file__`
(the engine's own source path). -/
structure FileSys where
  mtime : String → Int
  fileExists : String → Bool
  hanchoPath : String

/-- The fields of a `Task` (and its config) that `needs_rerun` reads,
after `task_init` resolved them: `in_files`, `out_files`, the snapshot of
loader-tracked scripts (`self._loaded_files`), `config.get("in_depfile")`,
`config.get("depformat", "gcc")` (`depformat` holds the resolved value),
the text the depfile holds when it is read, the `Data.Includes` array a
`json.load` of an MSVC depfile yields (JSON parsing itself is abstracted),
and `config.task_dir`. -/
structure TaskRerun where
  in_files : List String
  out_files : List String
  loaded_files : List String
  in_depfile : Option String
  depformat : String
  depfileContent : String
  msvcIncludes : List String
  task_dir : String

/-- Model of `os.path.join(a, b)` for POSIX paths as the engine uses it: an
absolute `b` wins; otherwise concatenate with a single separator. -/
def joinPath (a b : String) : String :=
  if b.startsWith "/" then b
  else if a = "" ∨ a.endsWith "/" then a ++ b
  else a ++ "/" ++ b

/-- Python `str.split()` with no argument: split on whitespace runs,
discarding empty pieces. -/
def pySplitWs (s : String) : List String :=
  (s.split Char.isWhitespace).filter (fun t => t ≠ "")

/-- GCC `-MMD` depfile parsing from `needs_rerun`:
`deplines = depfile.read().split()` then `[d for d in deplines[1:] if d != "\\"]`. -/
def gccDeps (content : String) : List String :=
  ((pySplitWs content).drop 1).filter (fun d => d ≠ "\\")

/-- Python `str(list_of_str)`, e.g. `['a', 'b']` (no escaping needed for
the paths that occur here); used by the `force` reason f-string. -/
def pyReprStrList (xs : List String) : String :=
  "[" ++ String.intercalate ", " (xs.map (fun s => "'" ++ s ++ "'")) ++ "]"

/-- Model of `min(mtime(f) for f in out_files)` (callers guarantee non-emptiness;
the `[]` case is unreachable). -/
def minMtime (fs : FileSys) : List String → Int
  | [] => 0
  | f :: rest => rest.foldl (fun acc g => min acc (fs.mtime g)) (fs.mtime f)

/-- Model of `Task.needs_rerun(force)`: returns the (possibly empty) reason string,
or raises `ValueError` (`Except.error`) on an unknown `depformat`.  Each
Python `for`-loop that returns on the first hit is a `List.find?`. -/
def needsRerun (fs : FileSys) (t : TaskRerun) (force : Bool) :
    Except String String :=
  if force then
    Except.ok ("Files " ++ pyReprStrList t.out_files ++ " forced to rebuild")
  else if t.in_files = [] then Except.ok "Always rebuild a target with no inputs"
  else if t.out_files = [] then Except.ok "Always rebuild a target with no outputs"
  else
    match t.out_files.find? (fun f => !fs.fileExists f) with
    | some f => Except.ok ("Rebuilding because " ++ f ++ " is missing")
    | none =>
      let min_out := minMtime fs t.out_files
      if min_out ≤ fs.mtime fs.hanchoPath then
        Except.ok "Rebuilding because hancho.py has changed"
      else
        match t.in_files.find? (fun f => min_out ≤ fs.mtime f) with
        | some f => Except.ok ("Rebuilding because " ++ f ++ " has changed")
        | none =>
          match t.loaded_files.find? (fun f => min_out ≤ fs.mtime f) with
          | some f => Except.ok ("Rebuilding because " ++ f ++ " has changed")
          | none =>
            match t.in_depfile with
            | some df =>
              if df ≠ "" ∧ fs.fileExists df then
                if t.depformat = "msvc" then
                  match (t.msvcIncludes.map (joinPath t.task_dir)).find?
                      (fun f => min_out ≤ fs.mtime f) with
                  | some f => Except.ok ("Rebuilding because " ++ f ++ " has changed")
                  | none => Except.ok ""
                else if t.depformat = "gcc" then
                  match ((gccDeps t.depfileContent).map (joinPath t.task_dir)).find?
                      (fun f => min_out ≤ fs.mtime f) with
                  | some f => Except.ok ("Rebuilding because " ++ f ++ " has changed")
                  | none => Except.ok ""
                else Except.error ("Invalid dependency file format " ++ t.depformat)
              else Except.ok ""
            | none => Except.ok ""

/-- The depfile-listed dependencies `needs_rerun` would stat: present and
resolved against `task_dir` exactly as the corresponding branch does. -/
def depfileDeps (fs : FileSys) (t : TaskRerun) : List String :=
  match t.in_depfile with
  | some df =>
    if df ≠ "" ∧ fs.fileExists df then
      if t.depformat = "msvc" then t.msvcIncludes.map (joinPath t.task_dir)
      else (gccDeps t.depfileContent).map (joinPath t.task_dir)
    else []
  | none => []

/-- Every file whose mtime the oracle compares against `min_out`, in the
order the checks run: the engine source, inputs, loader-tracked scripts,
then depfile dependencies. -/
def consultedFiles (fs : FileSys) (t : TaskRerun) : List String :=
  fs.hanchoPath :: (t.in_files ++ t.loaded_files ++ depfileDeps fs t)

/-! ## The duplicate-output check of `Task.task_init` -/

/-- Python truthiness of a config value (`if self.config.command:`). -/
def valueTruthy : Value → Bool
  | Value.vnil => false
  | Value.vbool b => b
  | Value.vint n => n != 0
  | Value.vstr s => s != ""
  | Value.vlist xs => !xs.isEmpty
  | Value.vconfig es => !es.isEmpty

/-- The fields of a `Task` that the duplicate-output check reads. -/
structure TaskOut where
  command : Value
  out_files : List String

/-- The `for file in self.out_files` loop guarded by `if self.config.command:`
in `task_init`: raise `NameError` on a file already in `app.all_out_files`,
else add it.  Files added before the collision stay added, as in Python,
so the mutated set is returned alongside the outcome. -/
def registerOuts (allOut : List String) : List String → Option String × List String
  | [] => (none, allOut)
  | f :: rest =>
    if f ∈ allOut then (some ("Multiple rules build " ++ f ++ "!"), allOut)
    else registerOuts (f :: allOut) rest

/-- The duplicate-output portion of `task_init` for one task: commandless
tasks are not checked and claim nothing. -/
def taskInitCheck (allOut : List String) (t : TaskOut) :
    Option String × List String :=
  if valueTruthy t.command then registerOuts allOut t.out_files
  else (none, allOut)

/-- Run the duplicate-output check over tasks in scheduling order,
threading `app.all_out_files`; yields each task's success flag
(`true` = no `NameError`, the task is not BROKEN by this check). -/
def initAll (allOut : List String) : List TaskOut → List Bool × List String
  | [] => ([], allOut)
  | t :: rest =>
    let r := taskInitCheck allOut t
    let rec' := initAll r.2 rest
    (r.1.isNone :: rec'.1, rec'.2)

/-! ## The command loop of `Task.task_main` / `Task.run_command` -/

mutual

/-- Python `flatten`: list-likes recurse, `None` vanishes, anything else
is a singleton. -/
def flattenValue : Value → List Value
  | Value.vnil => []
  | Value.vlist xs => flattenValueList xs
  | v => [v]

/-- Element-wise part of `flatten`. -/
def flattenValueList : List Value → List Value
  | [] => []
  | x :: rest => flattenValue x ++ flattenValueList rest

end

/-- The subprocess behavior visible to the command loop: the return code
the shell yields for each command string (dry-run and callable commands
are outside the verified claims). -/
structure CmdEnv where
  exec : String → Int

/-- The `for command in flatten(self.config.command)` loop of `task_main`
over `run_command`: a non-string command raises `ValueError`; a string
runs, and `command_pass = (returncode == 0) != should_fail` decides
whether `run_command` raises; a surviving non-zero return code breaks the
loop.  Returns the commands that were executed, in order, and the
outcome. -/
def runCommands (env : CmdEnv) (shouldFail : Bool) :
    List Value → List String × Except String Unit
  | [] => ([], Except.ok ())
  | Value.vstr s :: rest =>
    let rc := env.exec s
    if ((rc == 0) != shouldFail) = false then
      ([s], Except.error ("Command exited with return code " ++ toString rc))
    else if rc != 0 then ([s], Except.ok ())
    else
      let r := runCommands env shouldFail rest
      (s :: r.1, r.2)
  | _ :: _ => ([], Except.error "Dont know what to do with command")

/-- Model: `task_main` runs the flattened `command` value through the loop. -/
def runTaskCommands (env : CmdEnv) (shouldFail : Bool) (command : Value) :
    List String × Except String Unit :=
  runCommands env shouldFail (flattenValue command)

/-- The longest prefix of the command list the loop may touch: everything
up to and including the first command satisfying `p`. -/
def takeThrough (p : String → Bool) : List String → List String
  | [] => []
  | a :: as => if p a then [a] else a :: takeThrough p as

/-! ## Exit code of `App.async_run_tasks` -/

/-- States of `TaskState` from `hancho.py`. -/
inductive TaskState where
  | DECLARED | QUEUED | STARTED | AWAITING_INPUTS | TASK_INIT | AWAITING_JOBS
  | RUNNING_COMMANDS | FINISHED | CANCELLED | FAILED | SKIPPED | BROKEN
  deriving DecidableEq, Repr

/-- Model of `return -1 if self.tasks_failed or self.tasks_broken else 0` at the
end of `async_run_tasks`, with the counters obtained by counting tasks
whose terminal state is FAILED resp. BROKEN (each counter is incremented
exactly when a task enters that state). -/
def buildResult (finalStates : List TaskState) : Int :=
  if finalStates.count TaskState.FAILED ≠ 0 ∨
     finalStates.count TaskState.BROKEN ≠ 0 then -1 else 0

/-! ## Concrete witness data -/

/-- A self-recursive config value: expanding `{a}` re-reads `a` forever,
so the depth cap must fire. -/
def cfgSelf : List (String × Value) := [("a", Value.vstr "{a}")]

/-- A 12-deep chain of templates: `k0 = "{k1}"`, …, `k11 = "end"`.
Expanding `{k0}` from a clean engine exhausts `MAX_EXPAND_DEPTH` part-way
down the chain. -/
def chainCfg12 : List (String × Value) :=
  [("k0", Value.vstr "{k1}"), ("k1", Value.vstr "{k2}"),
   ("k2", Value.vstr "{k3}"), ("k3", Value.vstr "{k4}"),
   ("k4", Value.vstr "{k5}"), ("k5", Value.vstr "{k6}"),
   ("k6", Value.vstr "{k7}"), ("k7", Value.vstr "{k8}"),
   ("k8", Value.vstr "{k9}"), ("k9", Value.vstr "{k10}"),
   ("k10", Value.vstr "{k11}"), ("k11", Value.vstr "end")]

/-- Left-hand config for the merge witness. -/
def cfgLeW : List (String × Value) :=
  [("a", Value.vint 1), ("b", Value.vnil),
   ("c", Value.vconfig [("x", Value.vint 1)])]

/-- Right-hand mapping for the merge witness: a `nil` over a non-nil value,
an overwrite over a `nil`, a config-config recursion, and a fresh key. -/
def cfgReW : List (String × Value) :=
  [("a", Value.vnil), ("b", Value.vint 7),
   ("c", Value.vconfig [("y", Value.vint 2)]), ("d", Value.vstr "new")]

/-- File system for the staleness witness: input and output share mtime 10
(a tie), everything else is older; every path exists. -/
def fsW : FileSys :=
  { mtime := fun f => if f = "/w/in" then 10 else if f = "/w/out" then 10 else 0
    fileExists := fun _ => true
    hanchoPath := "/hancho.py" }

/-- Task for the staleness witness: one input, one output, no depfile. -/
def taskW : TaskRerun :=
  { in_files := ["/w/in"], out_files := ["/w/out"], loaded_files := []
    in_depfile := none, depformat := "gcc", depfileContent := ""
    msvcIncludes := [], task_dir := "/w" }

/-- Tasks for the output-uniqueness witness: two command-bearing tasks
with disjoint outputs and one commandless task. -/
def tasksW : List TaskOut :=
  [{ command := Value.vstr "touch a", out_files := ["a"] },
   { command := Value.vnil, out_files := [] },
   { command := Value.vstr "touch b c", out_files := ["b", "c"] }]

/-! ## Theorems -/

/-- C9: after the scheduler drains all tasks, the build's result (the
process exit code) is `0` exactly when no task ended FAILED or BROKEN,
and `-1` exactly when at least one task did. -/
theorem exit_code_reflects_failures (ts : List TaskState) :
    (buildResult ts = 0 ↔
      ∀ s ∈ ts, s ≠ TaskState.FAILED ∧ s ≠ TaskState.BROKEN) ∧
    (buildResult ts = -1 ↔
      ∃ s ∈ ts, s = TaskState.FAILED ∨ s = TaskState.BROKEN) := by
  have hmem : (TaskState.FAILED ∈ ts ∨ TaskState.BROKEN ∈ ts) ↔
      ∃ s ∈ ts, s = TaskState.FAILED ∨ s = TaskState.BROKEN := by
    constructor
    · rintro (h | h)
      · exact ⟨_, h, Or.inl rfl⟩
      · exact ⟨_, h, Or.inr rfl⟩
    · rintro ⟨s, hs, (rfl | rfl)⟩
      · exact Or.inl hs
      · exact Or.inr hs
  have hcnt : (ts.count TaskState.FAILED ≠ 0 ∨ ts.count TaskState.BROKEN ≠ 0) ↔
      (TaskState.FAILED ∈ ts ∨ TaskState.BROKEN ∈ ts) := by
    simp [Ne, List.count_eq_zero]
  rw [buildResult]
  by_cases h : ts.count TaskState.FAILED ≠ 0 ∨ ts.count TaskState.BROKEN ≠ 0
  · rw [if_pos h]
    have hex := hmem.mp (hcnt.mp h)
    constructor
    · constructor
      · intro h0; exact absurd h0 (by decide)
      · intro hall
        obtain ⟨s, hs, hor⟩ := hex
        rcases hor with rfl | rfl
        · exact absurd rfl (hall _ hs).1
        · exact absurd rfl (hall _ hs).2
    · exact ⟨fun _ => hex, fun _ => rfl⟩
  · rw [if_neg h]
    have hnot : ¬(TaskState.FAILED ∈ ts ∨ TaskState.BROKEN ∈ ts) :=
      fun hm => h (hcnt.mpr hm)
    push_neg at hnot
    constructor
    · constructor
      · intro _ s hs
        exact ⟨fun e => hnot.1 (e ▸ hs), fun e => hnot.2 (e ▸ hs)⟩
      · intro _; rfl
    · constructor
      · intro h0; exact absurd h0 (by decide)
      · rintro ⟨s, hs, (rfl | rfl)⟩
        · exact absurd hs hnot.1
        · exact absurd hs hnot.2

/-- C8: with the default `should_fail = False`, the flattened command list
is executed in declared order, and execution stops with the first command
whose return code is non-zero — `takeThrough` is exactly "all commands up
to and including the first non-zero one". -/
theorem commands_in_declared_order (env : CmdEnv) (command : Value)
    (strs : List String) (h : flattenValue command = strs.map Value.vstr) :
    (runTaskCommands env false command).1 =
      takeThrough (fun s => env.exec s != 0) strs := by
  rw [runTaskCommands, h]
  clear h
  induction strs with
  | nil => rfl
  | cons s rest ih =>
    by_cases h0 : env.exec s = 0
    · simp [runCommands, takeThrough, h0, ih]
    · simp [runCommands, takeThrough, h0]

/-- Witness for C8 at a concrete environment: `"ok"` exits 0, everything
else exits 1; the command `["ok", ["bad"], "never"]` flattens to three
strings and only the first two are executed. -/
theorem commands_in_declared_order_witness :
    flattenValue (Value.vlist [Value.vstr "ok",
        Value.vlist [Value.vstr "bad"], Value.vstr "never"]) =
      (["ok", "bad", "never"].map Value.vstr) ∧
    (runTaskCommands (CmdEnv.mk (fun s => if s = "ok" then 0 else 1)) false
        (Value.vlist [Value.vstr "ok",
          Value.vlist [Value.vstr "bad"], Value.vstr "never"])).1 =
      takeThrough
        (fun s => (CmdEnv.mk (fun s => if s = "ok" then 0 else 1)).exec s != 0)
        ["ok", "bad", "never"] ∧
    takeThrough
        (fun s => (CmdEnv.mk (fun s => if s = "ok" then 0 else 1)).exec s != 0)
        ["ok", "bad", "never"] = ["ok", "bad"] :=
  ⟨rfl, commands_in_declared_order _ _ ["ok", "bad", "never"] rfl, rfl⟩

/-! ### Association-list and merge lemmas -/

theorem mergeEntries_nil (le : List (String × Value)) : mergeEntries le [] = le :=
  rfl

theorem mergeEntries_cons (le : List (String × Value)) (k : String) (rv : Value)
    (rest : List (String × Value)) :
    mergeEntries le ((k, rv) :: rest) =
      mergeEntries
        (if ((lookupEntry le k).getD Value.vnil).isNil || !rv.isNil then
          setEntry le k (mergeVariant ((lookupEntry le k).getD Value.vnil) rv)
        else le) rest :=
  rfl

theorem lookupEntry_setEntry_self (es : List (String × Value)) (k : String)
    (v : Value) : lookupEntry (setEntry es k v) k = some v := by
  induction es with
  | nil => simp [setEntry, lookupEntry]
  | cons e rest ih =>
    obtain ⟨k', v'⟩ := e
    by_cases h : k' = k
    · simp [setEntry, lookupEntry, h]
    · simp [setEntry, lookupEntry, h, ih]

theorem lookupEntry_setEntry_ne (es : List (String × Value)) (k k' : String)
    (v : Value) (h : k' ≠ k) :
    lookupEntry (setEntry es k' v) k = lookupEntry es k := by
  induction es with
  | nil => simp [setEntry, lookupEntry, h]
  | cons e rest ih =>
    obtain ⟨k'', v''⟩ := e
    by_cases h2 : k'' = k'
    · subst h2
      simp [setEntry, lookupEntry, h]
    · simp [setEntry, lookupEntry, h2, ih]

theorem lookupEntry_mergeEntries_of_none (re le : List (String × Value))
    (k : String) (h : lookupEntry re k = none) :
    lookupEntry (mergeEntries le re) k = lookupEntry le k := by
  induction re generalizing le with
  | nil => rfl
  | cons e rest ih =>
    obtain ⟨k', rv⟩ := e
    have hne : k' ≠ k := by
      intro e'
      subst e'
      simp [lookupEntry] at h
    have hr : lookupEntry rest k = none := by
      simpa [lookupEntry, hne] using h
    rw [mergeEntries_cons, ih _ hr]
    split
    · exact lookupEntry_setEntry_ne _ _ _ _ hne
    · rfl

theorem lookupEntry_mergeEntries_eq_none (re le : List (String × Value))
    (k : String) (h : lookupEntry (mergeEntries le re) k = none) :
    lookupEntry le k = none ∧ lookupEntry re k = none := by
  induction re generalizing le with
  | nil => exact ⟨h, rfl⟩
  | cons e rest ih =>
    obtain ⟨k', rv⟩ := e
    rw [mergeEntries_cons] at h
    obtain ⟨h1, h2⟩ := ih _ h
    by_cases hk : k' = k
    · subst hk
      revert h1
      split
      · intro h1
        rw [lookupEntry_setEntry_self] at h1
        exact absurd h1 (by simp)
      · next hcond =>
        intro h1
        rw [h1] at hcond
        simp [Value.isNil] at hcond
    · constructor
      · revert h1
        split
        · intro h1
          rwa [lookupEntry_setEntry_ne _ _ _ _ hk] at h1
        · intro h1
          exact h1
      · simp [lookupEntry, hk, h2]

/-- C1: for a fork chain `C3 = C2.fork(o3)`, `C2 = C1.fork(o2)`, attribute
lookup on `C3` falls through: it returns `C3`'s local binding when
present, otherwise `C2`'s, otherwise `C1`'s, and raises the *key-missing*
`AttributeError` exactly when the key is bound nowhere in the chain (nor
in either override set). -/
theorem config_lookup_chain (b1 o2 o3 : List (String × Value)) (k : String) :
    (configGetattr (forkConfig (forkConfig b1 o2) o3) k =
      (match lookupEntry (forkConfig (forkConfig b1 o2) o3) k with
       | some v => Except.ok v
       | none =>
         match lookupEntry (forkConfig b1 o2) k with
         | some v => Except.ok v
         | none =>
           match lookupEntry b1 k with
           | some v => Except.ok v
           | none => Except.error ("AttributeError: " ++ k))) ∧
    ((∃ m, configGetattr (forkConfig (forkConfig b1 o2) o3) k = Except.error m) ↔
      lookupEntry (forkConfig (forkConfig b1 o2) o3) k = none ∧
      lookupEntry (forkConfig b1 o2) k = none ∧ lookupEntry b1 k = none ∧
      lookupEntry o2 k = none ∧ lookupEntry o3 k = none) := by
  have hchain : lookupEntry (forkConfig (forkConfig b1 o2) o3) k = none →
      lookupEntry (forkConfig b1 o2) k = none ∧ lookupEntry b1 k = none ∧
      lookupEntry o2 k = none ∧ lookupEntry o3 k = none := by
    intro h3
    obtain ⟨hbase3, ho3⟩ := lookupEntry_mergeEntries_eq_none _ _ _ h3
    obtain ⟨-, hc2⟩ := lookupEntry_mergeEntries_eq_none _ _ _ hbase3
    obtain ⟨hbase2, ho2⟩ := lookupEntry_mergeEntries_eq_none _ _ _ hc2
    obtain ⟨-, hb1⟩ := lookupEntry_mergeEntries_eq_none _ _ _ hbase2
    exact ⟨hc2, hb1, ho2, ho3⟩
  constructor
  · cases h3 : lookupEntry (forkConfig (forkConfig b1 o2) o3) k with
    | some v => simp [configGetattr, h3]
    | none =>
      obtain ⟨hc2, hb1, -, -⟩ := hchain h3
      simp [configGetattr, h3, hc2, hb1]
  · constructor
    · rintro ⟨m, hm⟩
      cases h3 : lookupEntry (forkConfig (forkConfig b1 o2) o3) k with
      | some v => simp [configGetattr, h3] at hm
      | none => exact ⟨rfl, hchain h3⟩
    · rintro ⟨h3, -⟩
      exact ⟨"AttributeError: " ++ k, by simp [configGetattr, h3]⟩

/-- The keys of an association list with pairwise-distinct keys miss `k`
iff lookup fails. -/
theorem lookupEntry_eq_none_of_not_mem (re : List (String × Value)) (k : String)
    (h : k ∉ re.map Prod.fst) : lookupEntry re k = none := by
  induction re with
  | nil => rfl
  | cons e rest ih =>
    obtain ⟨k', v⟩ := e
    simp only [List.map_cons, List.mem_cons] at h
    push_neg at h
    have hne : ¬k' = k := fun e' => h.1 e'.symm
    simp [lookupEntry, hne, ih h.2]

/-- C5: merging a dict-like `re` onto a config `le` behaves per key as the
claim states: with no right-hand binding the left value is untouched;
with a right-hand `nil` against a non-nil left value the left value is
untouched; otherwise the right-hand value overwrites (via `mergeVariant`,
which — second conjunct — recurses when both sides hold a config). -/
theorem merge_per_key (le re : List (String × Value)) (k : String)
    (hnd : (re.map Prod.fst).Nodup) :
    (lookupEntry (mergeEntries le re) k =
      mergeLookupSpec (lookupEntry le k) (lookupEntry re k)) ∧
    ∀ lc rc, mergeVariant (Value.vconfig lc) (Value.vconfig rc) =
      Value.vconfig (mergeEntries lc rc) := by
  refine ⟨?_, fun lc rc => rfl⟩
  revert hnd
  induction re generalizing le with
  | nil => intro hnd; rfl
  | cons e rest ih =>
    intro hnd
    obtain ⟨k', rv⟩ := e
    simp only [List.map_cons, List.nodup_cons] at hnd
    rw [mergeEntries_cons]
    by_cases hk : k' = k
    · have hk2 := hk.symm
      subst hk2
      have hrest : lookupEntry rest k = none :=
        lookupEntry_eq_none_of_not_mem _ _ hnd.1
      rw [lookupEntry_mergeEntries_of_none _ _ _ hrest]
      have hre : lookupEntry ((k, rv) :: rest) k = some rv := by
        simp [lookupEntry]
      rw [hre]
      split
      · next hcond =>
        simp only [Bool.or_eq_true, Bool.not_eq_true'] at hcond
        have hneg : ¬(((lookupEntry le k).getD Value.vnil).isNil = false ∧
            rv.isNil = true) := by
          rintro ⟨ha, hb⟩
          rcases hcond with h | h
          · rw [ha] at h
            exact Bool.noConfusion h
          · rw [hb] at h
            exact Bool.noConfusion h
        rw [lookupEntry_setEntry_self]
        simp [mergeLookupSpec, hneg]
      · next hcond =>
        simp only [Bool.or_eq_true, Bool.not_eq_true', not_or,
          Bool.not_eq_false, Bool.not_eq_true] at hcond
        simp [mergeLookupSpec, hcond.1, hcond.2]
    · have hle : lookupEntry
          (if ((lookupEntry le k').getD Value.vnil).isNil || !rv.isNil then
            setEntry le k' (mergeVariant ((lookupEntry le k').getD Value.vnil) rv)
          else le) k = lookupEntry le k := by
        split
        · exact lookupEntry_setEntry_ne _ _ _ _ hk
        · rfl
      rw [ih _ hnd.2, hle]
      have hre : lookupEntry ((k', rv) :: rest) k = lookupEntry rest k := by
        simp [lookupEntry, hk]
      rw [hre]

/-! ### Span-search decomposition -/

theorem scanBody_decomp (l : List Char) (b s : List Char)
    (h : scanBody l = some (b, s)) : l = b ++ '}' :: s := by
  induction l generalizing b s with
  | nil => simp [scanBody] at h
  | cons c rest ih =>
    by_cases hc : c = '}'
    · subst hc
      simp [scanBody] at h
      obtain ⟨rfl, rfl⟩ := h
      rfl
    · by_cases hc2 : c = '{'
      · subst hc2
        simp [scanBody] at h
      · simp only [scanBody, if_neg hc, if_neg hc2] at h
        cases hsb : scanBody rest with
        | none => rw [hsb] at h; simp at h
        | some bs =>
          obtain ⟨b', s'⟩ := bs
          rw [hsb] at h
          simp at h
          obtain ⟨rfl, rfl⟩ := h
          simp [ih b' s' hsb]

theorem findSpanAux_decomp (l : List Char) (p m s : List Char)
    (h : findSpanAux l = some (p, m, s)) : l = p ++ m ++ s := by
  induction l generalizing p m s with
  | nil => simp [findSpanAux] at h
  | cons c rest ih =>
    by_cases hc : c = '{'
    · subst hc
      simp only [findSpanAux, if_pos rfl] at h
      cases hsb : scanBody rest with
      | some bs =>
        obtain ⟨body, suffix⟩ := bs
        rw [hsb] at h
        simp at h
        obtain ⟨rfl, rfl, rfl⟩ := h
        have hr := scanBody_decomp rest body suffix hsb
        simp [hr]
      | none =>
        rw [hsb] at h
        cases hfa : findSpanAux rest with
        | none => rw [hfa] at h; simp at h
        | some pms =>
          obtain ⟨p', m', s'⟩ := pms
          rw [hfa] at h
          simp at h
          obtain ⟨rfl, rfl, rfl⟩ := h
          simp [ih p' m' s' hfa]
    · simp only [findSpanAux, if_neg hc] at h
      cases hfa : findSpanAux rest with
      | none => rw [hfa] at h; simp at h
      | some pms =>
        obtain ⟨p', m', s'⟩ := pms
        rw [hfa] at h
        simp at h
        obtain ⟨rfl, rfl, rfl⟩ := h
        simp [ih p' m' s' hfa]

theorem findSpan_decomp (t pre mac suf : String)
    (h : findSpan t = some (pre, mac, suf)) : t = pre ++ mac ++ suf := by
  unfold findSpan at h
  cases hfa : findSpanAux t.data with
  | none => rw [hfa] at h; simp at h
  | some pms =>
    obtain ⟨p, m, s⟩ := pms
    rw [hfa] at h
    simp at h
    obtain ⟨rfl, rfl, rfl⟩ := h
    have hd := findSpanAux_decomp _ _ _ _ hfa
    apply String.ext
    simpa [String.data_append] using hd

/-! ### TEFINAE and the depth cap -/

/-- The catch-all in `expand_macro`: any failing evaluation (except the
fuel artifact) makes the span itself the result, with only `expand_dec`
run on the state the exception left behind. -/
theorem expandSpanned_catch (fuel : Nat) (cfg : List (String × Value))
    (mac : String) (d d' : Int) (e : ExpErr)
    (hd : d + 1 ≤ MAX_EXPAND_DEPTH)
    (heval : evalBody fuel cfg (macBody mac) (d + 1) = (Except.error e, d'))
    (hef : e ≠ ExpErr.fuelOut) (hd' : 1 ≤ d') :
    expandSpanned (fuel + 1) cfg mac d = (Except.ok (Value.vstr mac), d' - 1) := by
  have hmax : ¬ MAX_EXPAND_DEPTH < d + 1 := not_lt.mpr hd
  have hneg : ¬ d' - 1 < 0 := by omega
  cases e with
  | fuelOut => exact absurd rfl hef
  | keyMissing => simp [expandSpanned, if_neg hmax, heval, if_neg hneg, hd']
  | recursion => simp [expandSpanned, if_neg hmax, heval, if_neg hneg, hd']
  | unbalanced => simp [expandSpanned, if_neg hmax, heval, if_neg hneg, hd']

/-- C10: a `RecursionError` raised because a span's evaluation triggered
nested text expansion past `MAX_EXPAND_DEPTH` is caught by the catch-all
handler inside `expand_macro`: the span is emitted verbatim as an
ordinary result, and the depth-limit error does not propagate out of that
expansion (only `expand_dec` runs afterwards). -/
theorem nested_recursion_error_not_propagated (fuel : Nat)
    (cfg : List (String × Value)) (mac : String) (d d' : Int)
    (hd : d + 1 ≤ MAX_EXPAND_DEPTH)
    (heval : evalBody fuel cfg (macBody mac) (d + 1) =
      (Except.error ExpErr.recursion, d'))
    (hd' : 1 ≤ d') :
    expandSpanned (fuel + 1) cfg mac d = (Except.ok (Value.vstr mac), d' - 1) :=
  expandSpanned_catch fuel cfg mac d d' ExpErr.recursion hd heval
    (fun h => ExpErr.noConfusion h) hd'

/-- Witness for C10 on the self-recursive config `a = "{a}"`: evaluating
the body of `{a}` at depth 19 overflows the cap and yields a raw
`RecursionError` (with the counter left at 21), yet `expand_macro` at
depth 18 returns the span verbatim with no error. -/
theorem nested_recursion_error_not_propagated_witness :
    evalBody 10 cfgSelf (macBody "{a}") (18 + 1) =
      (Except.error ExpErr.recursion, 21) ∧
    (18 : Int) + 1 ≤ MAX_EXPAND_DEPTH ∧ (1 : Int) ≤ 21 ∧
    expandSpanned (10 + 1) cfgSelf "{a}" 18 =
      (Except.ok (Value.vstr "{a}"), 21 - 1) :=
  ⟨rfl, by decide, by decide,
    nested_recursion_error_not_propagated 10 cfgSelf "{a}" 18 21
      (by decide) rfl (by decide)⟩

/-- One pass over a text whose only span's evaluation fails without
touching the depth counter reproduces the text exactly. -/
theorem expandSpansLoop_single (fuel : Nat) (cfg : List (String × Value))
    (pre mac suf : String) (dl : Int) (e : ExpErr)
    (hspan : findSpan (pre ++ mac ++ suf) = some (pre, mac, suf))
    (hsuf : findSpan suf = none)
    (heval : evalBody (fuel + 1) cfg (macBody mac) (dl + 1) =
      (Except.error e, dl + 1))
    (hef : e ≠ ExpErr.fuelOut)
    (hdm : dl + 1 ≤ MAX_EXPAND_DEPTH) (hd0 : 1 ≤ dl) :
    expandSpansLoop (fuel + 3) cfg (pre ++ mac ++ suf) dl =
      (Except.ok (pre ++ mac ++ suf), dl) := by
  have hm := expandSpanned_catch (fuel + 1) cfg mac dl (dl + 1) e hdm heval hef
    (by omega)
  have hsimp : dl + 1 - 1 = dl := by omega
  rw [hsimp] at hm
  simp only [expandSpansLoop, hspan, hm, hsuf, stringifyVariant]

/-- C3 (TEFINAE): a string containing a `{expr}` span whose evaluation
raises (without moving the depth counter, as a *key-missing* failure
does) expands to itself: the span is emitted verbatim into the output and
no error propagates. -/
theorem tefinae_span_verbatim (fuel : Nat) (cfg : List (String × Value))
    (text pre mac suf : String) (d : Int) (e : ExpErr)
    (hspan : findSpan text = some (pre, mac, suf))
    (hsuf : findSpan suf = none)
    (heval : evalBody (fuel + 1) cfg (macBody mac) (d + 2) =
      (Except.error e, d + 2))
    (hef : e ≠ ExpErr.fuelOut)
    (hd0 : 0 ≤ d) (hdm : d + 2 ≤ MAX_EXPAND_DEPTH) :
    expandText (fuel + 4) cfg text d = (Except.ok text, d) := by
  have hdecomp := findSpan_decomp _ _ _ _ hspan
  subst hdecomp
  have heval' : evalBody (fuel + 1) cfg (macBody mac) (d + 1 + 1) =
      (Except.error e, d + 1 + 1) := by
    rw [show d + 1 + 1 = d + 2 by ring]
    exact heval
  have hloop := expandSpansLoop_single fuel cfg pre mac suf (d + 1) e hspan
    hsuf heval' hef (by omega) (by omega)
  have hmax : ¬ MAX_EXPAND_DEPTH < d + 1 := by
    simp only [MAX_EXPAND_DEPTH] at hdm ⊢
    omega
  have hne : findSpan (pre ++ mac ++ suf) ≠ none := by
    rw [hspan]
    exact Option.some_ne_none _
  have hnegd : ¬ d + 1 - 1 < 0 := by omega
  have hnne : ¬ (pre ++ mac ++ suf ≠ pre ++ mac ++ suf) := fun hx => hx rfl
  have hsimp : d + 1 - 1 = d := by omega
  simp only [expandText, if_neg hne, if_neg hmax, hloop, if_neg hnegd,
    if_neg hnne, hsimp]
  rw [if_neg (show ¬d < 0 by omega)]

/-- Witness for C3: with an empty config, evaluating `missing` raises
*key-missing* and `"pre {missing} post"` expands to itself at depth 0. -/
theorem tefinae_span_verbatim_witness :
    findSpan "pre {missing} post" = some ("pre ", "{missing}", " post") ∧
    findSpan " post" = none ∧
    evalBody 5 [] (macBody "{missing}") 2 = (Except.error ExpErr.keyMissing, 2) ∧
    expandText 8 [] "pre {missing} post" 0 =
      (Except.ok "pre {missing} post", 0) :=
  ⟨rfl, rfl, rfl,
    tefinae_span_verbatim 4 [] "pre {missing} post" "pre " "{missing}" " post"
      0 ExpErr.keyMissing rfl rfl rfl (fun h => ExpErr.noConfusion h)
      (by decide) (by decide)⟩

/-- C7: `expand_inc` enforces `MAX_EXPAND_DEPTH = 20`: attempting a 21st
nested level — entering `expand_text` on a span-bearing string, or
`expand_macro` on any span, with the counter already at the cap — raises
a `RecursionError` (leaving the counter incremented) instead of recursing
further. -/
theorem expansion_depth_capped (fuel : Nat) (cfg : List (String × Value))
    (s : String) (d : Int) (hs : findSpan s ≠ none)
    (hd : MAX_EXPAND_DEPTH < d + 1) :
    expandText (fuel + 1) cfg s d = (Except.error ExpErr.recursion, d + 1) ∧
    expandSpanned (fuel + 1) cfg s d = (Except.error ExpErr.recursion, d + 1) ∧
    MAX_EXPAND_DEPTH = 20 := by
  refine ⟨?_, ?_, rfl⟩
  · simp only [expandText, if_neg hs, if_pos hd]
  · simp only [expandSpanned, if_pos hd]

/-- Witness for C7: at depth 20 (the cap), one more span-bearing level
raises the *recursion* error. -/
theorem expansion_depth_capped_witness :
    findSpan "{x}" ≠ none ∧ MAX_EXPAND_DEPTH < 20 + 1 ∧
    (expandText 6 [] "{x}" 20 = (Except.error ExpErr.recursion, 20 + 1) ∧
     expandSpanned 6 [] "{x}" 20 = (Except.error ExpErr.recursion, 20 + 1) ∧
     MAX_EXPAND_DEPTH = 20) :=
  ⟨by decide, by decide, expansion_depth_capped 5 [] "{x}" 20 (by decide) (by decide)⟩

/-- C4 counterexample: on the 12-deep chain config, `expand("{k0}")` from
a clean engine returns `s' = "{k9}"` — a span emitted verbatim after an
internal depth-cap `RecursionError` was caught, leaving the global depth
counter at 19 instead of 0 — but expanding `s'` afresh returns `"end"`,
so `expand(s') ≠ s'`: expansion is not a fixed point as claimed. -/
theorem expand_fixpoint_counterexample :
    expandTop 60 chainCfg12 "{k0}" = (Except.ok "{k9}", 19) ∧
    expandTop 60 chainCfg12 "{k9}" = (Except.ok "end", 0) ∧
    ("end" : String) ≠ "{k9}" :=
  ⟨rfl, rfl, by decide⟩

/-- C4 amended: if `expand(s)` returns `s'` and `s'` holds no `{...}`
span, then `expand(s')` returns `s'` (expansion is idempotent once no
span remains, as the spec's own gloss states). -/
theorem expand_fixpoint_no_span (fuel : Nat) (cfg : List (String × Value))
    (s s' : String) (dfin : Int)
    (h : expandTop fuel cfg s = (Except.ok s', dfin))
    (hns : findSpan s' = none) :
    expandTop fuel cfg s' = (Except.ok s', 0) := by
  cases fuel with
  | zero => simp only [expandTop, expandText, if_pos hns]
  | succ fuel => simp only [expandTop, expandText, if_pos hns]

/-- Witness for the amended C4: `{a}` with `a = "hello"` expands fully to
the span-free `"hello"`, which then expands to itself. -/
theorem expand_fixpoint_no_span_witness :
    expandTop 10 [("a", Value.vstr "hello")] "{a}" = (Except.ok "hello", 0) ∧
    findSpan "hello" = none ∧
    expandTop 10 [("a", Value.vstr "hello")] "hello" = (Except.ok "hello", 0) :=
  ⟨rfl, rfl,
    expand_fixpoint_no_span 10 [("a", Value.vstr "hello")] "{a}" "hello" 0
      rfl rfl⟩

/-- Witness for C5 on concrete configs: the right-hand `nil` at `"a"`
leaves `1` in place, `"b"`'s `nil` is overwritten by `7`, the two configs
at `"c"` merge recursively, and `"d"` is added. -/
theorem merge_per_key_witness :
    ((cfgReW.map Prod.fst).Nodup) ∧
    ((lookupEntry (mergeEntries cfgLeW cfgReW) "a" =
        mergeLookupSpec (lookupEntry cfgLeW "a") (lookupEntry cfgReW "a")) ∧
      ∀ lc rc, mergeVariant (Value.vconfig lc) (Value.vconfig rc) =
        Value.vconfig (mergeEntries lc rc)) ∧
    lookupEntry (mergeEntries cfgLeW cfgReW) "a" = some (Value.vint 1) ∧
    lookupEntry (mergeEntries cfgLeW cfgReW) "b" = some (Value.vint 7) ∧
    lookupEntry (mergeEntries cfgLeW cfgReW) "c" =
      some (Value.vconfig [("x", Value.vint 1), ("y", Value.vint 2)]) ∧
    lookupEntry (mergeEntries cfgLeW cfgReW) "d" = some (Value.vstr "new") :=
  ⟨by decide, merge_per_key cfgLeW cfgReW "a" (by decide), rfl, rfl, rfl, rfl⟩

/-! ### The staleness oracle -/

theorem append3_ne_empty (a b c : String) (ha : a ≠ "") : a ++ b ++ c ≠ "" := by
  intro h
  have hd := congrArg String.data h
  simp only [String.data_append] at hd
  rcases List.append_eq_nil.mp (List.append_eq_nil.mp hd).1 with ⟨ha', -⟩
  exact ha (String.ext ha')

/-- C2: for a task with `force` unset, non-empty inputs and outputs, and
all outputs on disk, `needs_rerun` returns (never raises) a reason that
is non-empty exactly when some consulted file — the engine source, an
input, a loader-tracked script, or a depfile-listed dependency — has
mtime `≥` the minimum output mtime (so ties force a rebuild), and the
empty string when no such file exists. -/
theorem needs_rerun_staleness (fs : FileSys) (t : TaskRerun)
    (hin : t.in_files ≠ []) (hout : t.out_files ≠ [])
    (hex : ∀ f ∈ t.out_files, fs.fileExists f = true)
    (hfmt : t.depformat = "gcc" ∨ t.depformat = "msvc") :
    ∃ r, needsRerun fs t false = Except.ok r ∧
      (r ≠ "" ↔ ∃ f ∈ consultedFiles fs t,
        minMtime fs t.out_files ≤ fs.mtime f) := by
  have hfind : t.out_files.find? (fun f => !fs.fileExists f) = none :=
    List.find?_eq_none.mpr (fun x hx => by simp [hex x hx])
  simp only [needsRerun, Bool.false_eq_true, if_false, if_neg hin,
    if_neg hout, hfind]
  by_cases hhan : minMtime fs t.out_files ≤ fs.mtime fs.hanchoPath
  · rw [if_pos hhan]
    exact ⟨_, rfl, fun _ => ⟨fs.hanchoPath, by simp [consultedFiles], hhan⟩,
      fun _ => by decide⟩
  · rw [if_neg hhan]
    cases hfin : t.in_files.find?
        (fun f => decide (minMtime fs t.out_files ≤ fs.mtime f)) with
    | some f =>
      have hmem := List.mem_of_find?_eq_some hfin
      have hp := List.find?_some hfin
      simp only [decide_eq_true_eq] at hp
      exact ⟨_, rfl,
        fun _ => ⟨f, by simp [consultedFiles, hmem], hp⟩,
        fun _ => append3_ne_empty _ _ _ (by decide)⟩
    | none =>
      have hinn : ∀ x ∈ t.in_files,
          ¬ minMtime fs t.out_files ≤ fs.mtime x := by
        intro x hx
        simpa using List.find?_eq_none.mp hfin x hx
      cases hlod : t.loaded_files.find?
          (fun f => decide (minMtime fs t.out_files ≤ fs.mtime f)) with
      | some f =>
        have hmem := List.mem_of_find?_eq_some hlod
        have hp := List.find?_some hlod
        simp only [decide_eq_true_eq] at hp
        exact ⟨_, rfl,
          fun _ => ⟨f, by simp [consultedFiles, hmem], hp⟩,
          fun _ => append3_ne_empty _ _ _ (by decide)⟩
      | none =>
        have hlodn : ∀ x ∈ t.loaded_files,
            ¬ minMtime fs t.out_files ≤ fs.mtime x := by
          intro x hx
          simpa using List.find?_eq_none.mp hlod x hx
        cases hdf : t.in_depfile with
        | none =>
          refine ⟨"", rfl, ⟨fun h => absurd rfl h, ?_⟩⟩
          rintro ⟨f, hf, hge⟩
          simp only [consultedFiles, depfileDeps, hdf, List.append_nil,
            List.mem_cons, List.mem_append] at hf
          rcases hf with rfl | hf | hf
          · exact (hhan hge).elim
          · exact (hinn _ hf hge).elim
          · exact (hlodn _ hf hge).elim
        | some df =>
          simp only []
          by_cases hdfe : df ≠ "" ∧ fs.fileExists df = true
          · rw [if_pos hdfe]
            rcases hfmt with hg | hm
            · rw [if_neg (by rw [hg]; decide), if_pos hg]
              cases hdep : ((gccDeps t.depfileContent).map
                  (joinPath t.task_dir)).find?
                  (fun f => decide (minMtime fs t.out_files ≤ fs.mtime f)) with
              | some f =>
                have hmem := List.mem_of_find?_eq_some hdep
                have hp := List.find?_some hdep
                simp only [decide_eq_true_eq] at hp
                refine ⟨_, rfl,
                  fun _ => ⟨f, ?_, hp⟩,
                  fun _ => append3_ne_empty _ _ _ (by decide)⟩
                simp [consultedFiles, depfileDeps, hdf, hdfe, hg, hmem]
              | none =>
                have hdepn : ∀ x ∈ (gccDeps t.depfileContent).map
                    (joinPath t.task_dir),
                    ¬ minMtime fs t.out_files ≤ fs.mtime x := by
                  intro x hx
                  simpa using List.find?_eq_none.mp hdep x hx
                refine ⟨"", rfl, ⟨fun h => absurd rfl h, ?_⟩⟩
                rintro ⟨f, hf, hge⟩
                simp only [consultedFiles, depfileDeps, hdf, if_pos hdfe,
                  if_neg (show ¬t.depformat = "msvc" by rw [hg]; decide),
                  List.mem_cons, List.mem_append] at hf
                rcases hf with rfl | (hf | hf) | hf
                · exact (hhan hge).elim
                · exact (hinn _ hf hge).elim
                · exact (hlodn _ hf hge).elim
                · exact (hdepn _ hf hge).elim
            · rw [if_pos hm]
              cases hdep : (t.msvcIncludes.map (joinPath t.task_dir)).find?
                  (fun f => decide (minMtime fs t.out_files ≤ fs.mtime f)) with
              | some f =>
                have hmem := List.mem_of_find?_eq_some hdep
                have hp := List.find?_some hdep
                simp only [decide_eq_true_eq] at hp
                refine ⟨_, rfl,
                  fun _ => ⟨f, ?_, hp⟩,
                  fun _ => append3_ne_empty _ _ _ (by decide)⟩
                simp [consultedFiles, depfileDeps, hdf, hdfe, hm, hmem]
              | none =>
                have hdepn : ∀ x ∈ t.msvcIncludes.map (joinPath t.task_dir),
                    ¬ minMtime fs t.out_files ≤ fs.mtime x := by
                  intro x hx
                  simpa using List.find?_eq_none.mp hdep x hx
                refine ⟨"", rfl, ⟨fun h => absurd rfl h, ?_⟩⟩
                rintro ⟨f, hf, hge⟩
                simp only [consultedFiles, depfileDeps, hdf, if_pos hdfe,
                  if_pos hm, List.mem_cons, List.mem_append] at hf
                rcases hf with rfl | (hf | hf) | hf
                · exact (hhan hge).elim
                · exact (hinn _ hf hge).elim
                · exact (hlodn _ hf hge).elim
                · exact (hdepn _ hf hge).elim
          · rw [if_neg hdfe]
            refine ⟨"", rfl, ⟨fun h => absurd rfl h, ?_⟩⟩
            rintro ⟨f, hf, hge⟩
            simp only [consultedFiles, depfileDeps, hdf, if_neg hdfe,
              List.append_nil, List.mem_cons, List.mem_append] at hf
            rcases hf with rfl | hf | hf
            · exact (hhan hge).elim
            · exact (hinn _ hf hge).elim
            · exact (hlodn _ hf hge).elim

/-- Witness for C2: the input's mtime ties the (single) output's mtime at
10, and the tie alone forces the rebuild. -/
theorem needs_rerun_staleness_witness :
    taskW.in_files ≠ [] ∧ taskW.out_files ≠ [] ∧
    (∀ f ∈ taskW.out_files, fsW.fileExists f = true) ∧
    (taskW.depformat = "gcc" ∨ taskW.depformat = "msvc") ∧
    minMtime fsW taskW.out_files ≤ fsW.mtime "/w/in" ∧
    needsRerun fsW taskW false =
      Except.ok "Rebuilding because /w/in has changed" ∧
    (∃ r, needsRerun fsW taskW false = Except.ok r ∧
      (r ≠ "" ↔ ∃ f ∈ consultedFiles fsW taskW,
        minMtime fsW taskW.out_files ≤ fsW.mtime f)) :=
  ⟨by decide, by decide, by decide, Or.inl rfl, by decide, rfl,
    needs_rerun_staleness fsW taskW (by decide) (by decide) (by decide)
      (Or.inl rfl)⟩

/-! ### The duplicate-output invariant -/

theorem registerOuts_ok (outs : List String) (acc acc' : List String)
    (h : registerOuts acc outs = (none, acc')) :
    outs.Nodup ∧ (∀ f ∈ outs, f ∉ acc) ∧
    (∀ g, g ∈ acc' ↔ g ∈ outs ∨ g ∈ acc) := by
  induction outs generalizing acc with
  | nil =>
    simp only [registerOuts, Prod.mk.injEq, true_and] at h
    subst h
    simp
  | cons f rest ih =>
    by_cases hmem : f ∈ acc
    · simp [registerOuts, hmem] at h
    · rw [registerOuts, if_neg hmem] at h
      obtain ⟨hnd, hdis, hacc⟩ := ih (f :: acc) h
      refine ⟨?_, ?_, ?_⟩
      · refine List.nodup_cons.mpr ⟨?_, hnd⟩
        intro hf
        exact hdis f hf (List.mem_cons_self f acc)
      · intro x hx
        rcases List.mem_cons.mp hx with rfl | hx'
        · exact hmem
        · intro hxacc
          exact hdis x hx' (List.mem_cons_of_mem _ hxacc)
      · intro g
        rw [hacc g]
        simp [List.mem_cons]
        tauto

theorem registerOuts_collision (outs : List String) (acc : List String)
    (h : ∃ f ∈ outs, f ∈ acc) :
    ∃ m, (registerOuts acc outs).1 = some m := by
  induction outs generalizing acc with
  | nil => simp at h
  | cons f rest ih =>
    by_cases hmem : f ∈ acc
    · exact ⟨_, by rw [registerOuts, if_pos hmem]⟩
    · rw [registerOuts, if_neg hmem]
      obtain ⟨x, hx, hxacc⟩ := h
      rcases List.mem_cons.mp hx with rfl | hx'
      · exact absurd hxacc hmem
      · exact ih (f :: acc) ⟨x, hx', List.mem_cons_of_mem _ hxacc⟩

theorem initAll_nodup (tasks : List TaskOut) (acc : List String)
    (hflags : (initAll acc tasks).1.all (fun b => b) = true) :
    ((((tasks.filter (fun t => valueTruthy t.command)).map
        TaskOut.out_files).flatten).Nodup) ∧
    ∀ f ∈ ((tasks.filter (fun t => valueTruthy t.command)).map
        TaskOut.out_files).flatten, f ∉ acc := by
  induction tasks generalizing acc with
  | nil => simp
  | cons t rest ih =>
    rw [initAll] at hflags
    by_cases htr : valueTruthy t.command
    · have hcheck : taskInitCheck acc t = registerOuts acc t.out_files := by
        rw [taskInitCheck, if_pos htr]
      cases hreg : registerOuts acc t.out_files with
      | mk err acc' =>
        rw [hcheck, hreg] at hflags
        simp only [List.all_cons, Bool.and_eq_true] at hflags
        have herr : err = none := by
          cases err with
          | none => rfl
          | some m => simp [Option.isNone] at hflags
        subst herr
        obtain ⟨hnd, hdis, hacc⟩ := registerOuts_ok t.out_files acc acc' hreg
        obtain ⟨ihnd, ihdis⟩ := ih acc' hflags.2
        rw [List.filter_cons_of_pos (by simpa using htr)]
        simp only [List.map_cons, List.flatten_cons]
        constructor
        · rw [List.nodup_append]
          refine ⟨hnd, ihnd, ?_⟩
          intro x hx hx'
          exact ihdis x hx' ((hacc x).mpr (Or.inl hx))
        · intro f hf
          rcases List.mem_append.mp hf with hf' | hf'
          · exact hdis f hf'
          · intro hfacc
            exact ihdis f hf' ((hacc f).mpr (Or.inr hfacc))
    · have hcheck : taskInitCheck acc t = (none, acc) := by
        rw [taskInitCheck, if_neg htr]
      rw [hcheck] at hflags
      simp only [List.all_cons, Bool.and_eq_true] at hflags
      rw [List.filter_cons_of_neg (by simpa using htr)]
      exact ih acc hflags.2

/-- C6: (a) if the duplicate-output check of `task_init` passes for every
task in a run started with an empty `all_out_files` set, the out_files of
all command-bearing tasks, concatenated, contain no duplicate — and (b)
whenever a command-bearing task claims an output file already registered,
`task_init` raises the *name-collision* `NameError` (the task becomes
BROKEN). -/
theorem out_files_globally_unique (tasks : List TaskOut)
    (hok : (initAll [] tasks).1.all (fun b => b) = true) :
    ((((tasks.filter (fun t => valueTruthy t.command)).map
        TaskOut.out_files).flatten).Nodup) ∧
    ∀ acc t, valueTruthy t.command = true →
      (∃ f ∈ t.out_files, f ∈ acc) →
      ∃ m, (taskInitCheck acc t).1 = some m := by
  refine ⟨(initAll_nodup tasks [] hok).1, ?_⟩
  intro acc t htr hcol
  rw [taskInitCheck, if_pos htr]
  exact registerOuts_collision t.out_files acc hcol

/-- Witness for C6: two command-bearing tasks with disjoint outputs (plus
a commandless one) all pass, their outputs concatenate without
duplicates, and a third task re-claiming `"b"` raises the collision. -/
theorem out_files_globally_unique_witness :
    (initAll [] tasksW).1.all (fun b => b) = true ∧
    (((((tasksW.filter (fun t => valueTruthy t.command)).map
        TaskOut.out_files).flatten).Nodup) ∧
      ∀ acc t, valueTruthy t.command = true →
        (∃ f ∈ t.out_files, f ∈ acc) →
        ∃ m, (taskInitCheck acc t).1 = some m) ∧
    (taskInitCheck ["b"]
      { command := Value.vstr "touch b", out_files := ["b"] }).1 =
      some "Multiple rules build b!" :=
  ⟨by decide, out_files_globally_unique tasksW (by decide), rfl⟩

end Hancho
